import Mathlib

/-!
Verification of the `bau` parallel event log (`src/par_events/mod.rs`).

The Rust core stores, per event type, two generations of per-lane buffers
(`events_a` and `events_b`), plus a global atomic id counter `event_count`.
Writers push records (an id/event pair) onto their own lane of the B (current)
generation; `update`/`update_drain` swaps the generations and drains the old
one; readers merge both generations, sort by id, and track a high-water mark
`last_event_count`.

The embedding below is sequential: the atomic `fetch_add` becomes an ordinary
increment (the phase-separation contract of the source makes every claim here a
statement about some serial interleaving), `UnsafeCell` indirection is dropped,
and the `expect` panic on an unknown slot index becomes `Option.none`.
Rust `usize` subtraction that cannot underflow on the reachable states covered
by the theorems is rendered as truncated `Nat` subtraction.
-/

namespace Bau

/-- An ID and an event pair (`ParEventInstance` in the source; the
`ParEventId` wrapper is inlined to its `id: usize` field). -/
structure ParEventInstance (E : Type) where
  id : Nat
  event : E
deriving DecidableEq

instance {E : Type} : IsTotal (ParEventInstance E) (fun a b => a.id ≤ b.id) :=
  ⟨fun a b => Nat.le_total a.id b.id⟩

instance {E : Type} : IsTrans (ParEventInstance E) (fun a b => a.id ≤ b.id) :=
  ⟨fun _ _ _ => Nat.le_trans⟩

instance {E : Type} : IsAntisymm (ParEventInstance E) (fun a b => a.id < b.id) :=
  ⟨fun _ _ h1 h2 => absurd (Nat.lt_trans h1 h2) (Nat.lt_irrefl _)⟩

/-- Sort records ascending by id — the
`sort_by(|a, b| a.event_id.id.cmp(&b.event_id.id))` step of the source. -/
def sortById {E : Type} (l : List (ParEventInstance E)) : List (ParEventInstance E) :=
  List.insertionSort (fun a b => a.id ≤ b.id) l

/-- The ids of a record list, in order. -/
def ids {E : Type} (l : List (ParEventInstance E)) : List Nat :=
  l.map (fun x => x.id)

/-- The parallel event storage `ParEvents<E>`: generation A, generation B
(current write side) — each a vector of per-lane buffers — and the global
event counter. -/
structure ParEvents (E : Type) where
  events_a : List (List (ParEventInstance E))
  events_b : List (List (ParEventInstance E))
  event_count : Nat
deriving DecidableEq

namespace ParEvents

variable {E : Type}

/-- Rust `add_slot`: appends an empty lane to both generations and returns the new
lane's index (the lane count before the push). -/
def add_slot (ev : ParEvents E) : Nat × ParEvents E :=
  (ev.events_a.length,
   { ev with events_a := ev.events_a ++ [[]], events_b := ev.events_b ++ [[]] })

/-- Rust `impl Default for ParEvents`: empty storage, then one `add_slot` call —
slot 0 is reserved for default access from outside systems. -/
def default (E : Type) : ParEvents E :=
  (add_slot { events_a := [], events_b := [], event_count := 0 }).2

/-- Rust `send`: allocates the next id from the counter and pushes the record onto
lane `slot_index` of the B (current) generation.  `none` models the
`expect` panic when `slot_index` is not a registered lane. -/
def send (ev : ParEvents E) (slot_index : Nat) (event : E) : Option (ParEvents E) :=
  if h : slot_index < ev.events_b.length then
    some { ev with
      events_b := ev.events_b.set slot_index
        (ev.events_b[slot_index] ++ [⟨ev.event_count, event⟩]),
      event_count := ev.event_count + 1 }
  else
    none

/-- Tag a list of payloads with consecutive ids starting at `c` — the effect
of the per-element `fetch_add` in `ParEvents::extend`. -/
def tagFrom (c : Nat) : List E → List (ParEventInstance E)
  | [] => []
  | e :: es => ⟨c, e⟩ :: tagFrom (c + 1) es

/-- Rust `extend` (backing `send_batch`): allocates one id per element of `iter` in
iteration order and appends the records to lane `slot_index` of the B
generation.  `none` models the `expect` panic on an unregistered slot. -/
def extend (ev : ParEvents E) (slot_index : Nat) (iter : List E) : Option (ParEvents E) :=
  if h : slot_index < ev.events_b.length then
    some { ev with
      events_b := ev.events_b.set slot_index
        (ev.events_b[slot_index] ++ tagFrom ev.event_count iter),
      event_count := ev.event_count + iter.length }
  else
    none

/-- Rust `update_drain`: swap the two generations, then drain every lane of the
newly-assigned B side (the data that was generation A before the swap),
returning those events in lane order and leaving the lanes empty. -/
def update_drain (ev : ParEvents E) : List E × ParEvents E :=
  ((ev.events_a.flatten).map (fun x => x.event),
   { events_a := ev.events_b,
     events_b := ev.events_a.map (fun _ => []),
     event_count := ev.event_count })

/-- Rust `update` (the once-per-tick rotation): `update_drain` with the drained
events dropped. -/
def update (ev : ParEvents E) : ParEvents E :=
  (ev.update_drain).2

/-- Rust `clear`: empties every lane of both generations (the lanes themselves
remain). -/
def clear (ev : ParEvents E) : ParEvents E :=
  { events_a := ev.events_a.map (fun _ => []),
    events_b := ev.events_b.map (fun _ => []),
    event_count := ev.event_count }

/-- Rust `drain`: removes every record from both generations, returning the events
sorted by id. -/
def drain (ev : ParEvents E) : List E × ParEvents E :=
  ((sortById (ev.events_a.flatten ++ ev.events_b.flatten)).map (fun x => x.event),
   { events_a := ev.events_a.map (fun _ => []),
     events_b := ev.events_b.map (fun _ => []),
     event_count := ev.event_count })

/-- Rust `len` on the storage: total number of records over both generations. -/
def len (ev : ParEvents E) : Nat :=
  (ev.events_a.map (fun l => l.length)).sum + (ev.events_b.map (fun l => l.length)).sum

/-- Rust `is_empty` on the storage. -/
def is_empty (ev : ParEvents E) : Bool :=
  ev.len == 0

/-- The merged id-sorted view of all records of both generations — the
`iter_a.chain(iter_b)` + collect + `sort_by` step shared by the reader's
`len` and `ParEventIteratorWithId::new`. -/
def view (ev : ParEvents E) : List (ParEventInstance E) :=
  sortById (ev.events_a.flatten ++ ev.events_b.flatten)

end ParEvents

/-- Reader state `ParManualEventReader<E>`: the count of events this cursor
has already consumed (its high-water mark). -/
structure ParManualEventReader (E : Type) where
  last_event_count : Nat
deriving DecidableEq

namespace ParEvents

variable {E : Type}

/-- Rust `get_reader`: a reader that sees all events already in the buffers. -/
def get_reader (_ev : ParEvents E) : ParManualEventReader E :=
  { last_event_count := 0 }

/-- Rust `get_reader_current`: a reader that ignores everything already stored. -/
def get_reader_current (ev : ParEvents E) : ParManualEventReader E :=
  { last_event_count := ev.event_count }

end ParEvents

/-- The state of `ParEventIteratorWithId`: the mutably-borrowed reader, the
remaining records, and the `unread` counter. -/
structure ParEventIteratorWithId (E : Type) where
  reader : ParManualEventReader E
  event_iter : List (ParEventInstance E)
  unread : Nat
deriving DecidableEq

namespace ParEventIteratorWithId

variable {E : Type}

/-- Rust `ParEventIteratorWithId::new`: merge and sort both generations; if there
are records, compute `start_index` from the oldest retained id (saturating),
keep the records from `start_index` on, and catch the reader up to the oldest
retained id if it fell behind; if there are none, jump the reader to the
allocator's current value. -/
def new (reader : ParManualEventReader E) (ev : ParEvents E) : ParEventIteratorWithId E :=
  match ev.view with
  | [] =>
    { reader := { last_event_count := ev.event_count }, event_iter := [], unread := 0 }
  | oldest :: rest =>
    let start_index := reader.last_event_count - oldest.id
    { reader := { last_event_count :=
        if reader.last_event_count < oldest.id then oldest.id
        else reader.last_event_count },
      event_iter := (oldest :: rest).drop start_index,
      unread := (oldest :: rest).length - start_index }

/-- Rust `Iterator::next`: yield the next record, bumping the reader's counter and
decrementing `unread`; on exhaustion leave everything unchanged. -/
def next (it : ParEventIteratorWithId E) :
    Option (ParEventInstance E) × ParEventIteratorWithId E :=
  match it.event_iter with
  | [] => (none, it)
  | x :: rest =>
    (some x,
     { reader := { last_event_count := it.reader.last_event_count + 1 },
       event_iter := rest,
       unread := it.unread - 1 })

/-- Call `next` `k` times, collecting the yielded records and the final
iterator state. -/
def takeN : ParEventIteratorWithId E → Nat → List (ParEventInstance E) × ParEventIteratorWithId E
  | it, 0 => ([], it)
  | it, Nat.succ k =>
    match it.next with
    | (none, it') => ([], it')
    | (some x, it') =>
      let p := takeN it' k
      (x :: p.1, p.2)

end ParEventIteratorWithId

namespace ParManualEventReader

variable {E : Type}

/-- A cursor `read` driven to exhaustion: the records yielded (with their ids)
and the reader state after the iterator is dropped. -/
def read (r : ParManualEventReader E) (ev : ParEvents E) :
    List (ParEventInstance E) × ParManualEventReader E :=
  let it := ParEventIteratorWithId.new r ev
  let p := it.takeN it.event_iter.length
  (p.1, p.2.reader)

/-- A cursor `read` whose iterator is advanced only `k` times by `next` and
then dropped before exhaustion. -/
def read_take (r : ParManualEventReader E) (ev : ParEvents E) (k : Nat) :
    List (ParEventInstance E) × ParManualEventReader E :=
  let it := ParEventIteratorWithId.new r ev
  let p := it.takeN k
  (p.1, p.2.reader)

/-- Rust `ParManualEventReader::clear`: jump the cursor's high-water mark to the
allocator's current value.  The storage is taken by shared reference and is
untouched, as is every other reader. -/
def clear (r : ParManualEventReader E) (ev : ParEvents E) : ParManualEventReader E :=
  { r with last_event_count := ev.event_count }

/-- Rust `ParManualEventReader::len`: the same merge + sort + `start_index`
computation as `ParEventIteratorWithId::new`, without mutating the reader. -/
def len (r : ParManualEventReader E) (ev : ParEvents E) : Nat :=
  match ev.view with
  | [] => 0
  | oldest :: rest =>
    (oldest :: rest).length - (r.last_event_count - oldest.id)

/-- Rust `ParManualEventReader::is_empty`. -/
def is_empty (r : ParManualEventReader E) (ev : ParEvents E) : Bool :=
  r.len ev == 0

end ParManualEventReader

/-- Rust `ParEventWriter::init_state` and its slot registration on the `ParEvents`
resource: read the current lane count as the new slot index and push one empty
lane onto each generation. -/
def init_state {E : Type} (ev : ParEvents E) : Nat × ParEvents E :=
  (ev.events_a.length,
   { ev with events_a := ev.events_a ++ [[]], events_b := ev.events_b ++ [[]] })

/-- The storage-mutating operations of the core, for reasoning about arbitrary
operation sequences. -/
inductive Op (E : Type) where
  | send (slot_index : Nat) (event : E)
  | send_batch (slot_index : Nat) (iter : List E)
  | update
  | clear
  | drain
  | add_slot

/-- Apply one operation; `none` propagates the panic of `send`/`extend` on an
unregistered slot. -/
def applyOp {E : Type} (ev : ParEvents E) : Op E → Option (ParEvents E)
  | .send s e => ev.send s e
  | .send_batch s l => ev.extend s l
  | .update => some ev.update
  | .clear => some ev.clear
  | .drain => some (ev.drain).2
  | .add_slot => some (ev.add_slot).2

/-- Run a sequence of storage operations. -/
def runOps {E : Type} (ev : ParEvents E) : List (Op E) → Option (ParEvents E)
  | [] => some ev
  | op :: ops => (applyOp ev op).bind (fun ev' => runOps ev' ops)

/-- A sequence of single `send` calls, each on its own lane choice. -/
def sendAll {E : Type} (ev : ParEvents E) : List (Nat × E) → Option (ParEvents E)
  | [] => some ev
  | p :: rest => (ev.send p.1 p.2).bind (fun ev' => sendAll ev' rest)

/-- Alternate phases of sends and cursor reads: for each batch, perform its
sends, then fully read the cursor, collecting each round's output. -/
def runRounds {E : Type} (ev : ParEvents E) (r : ParManualEventReader E) :
    List (List (Nat × E)) →
    Option (List (List (ParEventInstance E)) × ParEvents E × ParManualEventReader E)
  | [] => some ([], ev, r)
  | batch :: rest =>
    (sendAll ev batch).bind (fun ev' =>
      let p := r.read ev'
      (runRounds ev' p.2 rest).map (fun q => (p.1 :: q.1, q.2)))

/-- The state after `n` registrations on a freshly-created (`Default`) log. -/
def registerN (E : Type) : Nat → ParEvents E
  | 0 => ParEvents.default E
  | n + 1 => ((registerN E n).add_slot).2

/-- A two-lane log: the reserved default lane 0 plus one registered lane. -/
def evTwoLanes : ParEvents Nat :=
  ((ParEvents.default Nat).add_slot).2

/-- A one-lane log observed after a rotation: generation A retains id 1,
generation B holds id 2, ids 0 has been discarded and the counter is at 3. -/
def evRotated : ParEvents Nat :=
  { events_a := [[⟨1, 11⟩]], events_b := [[⟨2, 12⟩]], event_count := 3 }

/-- Well-formedness of a reachable `ParEvents` state: both generations have
the same number of lanes, generation A holds exactly the ids `[lo, mid)` and
generation B exactly `[mid, event_count)` (each lane append-only, rotation
retiring whole generations, so retained ids form a contiguous range split at
the last rotation point). -/
def ParEvents.WF {E : Type} (ev : ParEvents E) (lo mid : Nat) : Prop :=
  ev.events_a.length = ev.events_b.length ∧
  lo ≤ mid ∧ mid ≤ ev.event_count ∧
  ids (sortById ev.events_a.flatten) = List.range' lo (mid - lo) ∧
  ids (sortById ev.events_b.flatten) = List.range' mid (ev.event_count - mid)

end Bau

namespace Bau

variable {E : Type}

theorem ids_append (l m : List (ParEventInstance E)) : ids (l ++ m) = ids l ++ ids m :=
  List.map_append _ l m

theorem ids_length (l : List (ParEventInstance E)) : (ids l).length = l.length :=
  List.length_map l _

theorem sortById_perm (l : List (ParEventInstance E)) : (sortById l).Perm l :=
  List.perm_insertionSort _ l

theorem sortById_pairwise (l : List (ParEventInstance E)) :
    (sortById l).Pairwise (fun a b => a.id ≤ b.id) :=
  List.sorted_insertionSort _ l

theorem pairwise_lt_of_le_nodup {l : List (ParEventInstance E)}
    (hs : l.Pairwise (fun a b => a.id ≤ b.id)) (hn : (ids l).Nodup) :
    l.Pairwise (fun a b => a.id < b.id) := by
  have h2 : l.Pairwise (fun a b => a.id ≠ b.id) := by
    have h3 : (l.map (fun x => x.id)).Pairwise (fun a b => a ≠ b) := hn
    exact List.pairwise_map.mp h3
  exact (hs.and h2).imp (fun h => Nat.lt_of_le_of_ne h.1 h.2)

theorem sorted_eq_of_perm {l m : List (ParEventInstance E)} (hp : l.Perm m)
    (hl : l.Pairwise (fun a b => a.id ≤ b.id)) (hm : m.Pairwise (fun a b => a.id ≤ b.id))
    (hn : (ids m).Nodup) : l = m := by
  have hn2 : (List.map (fun x : ParEventInstance E => x.id) m).Nodup := hn
  have hn' : (ids l).Nodup := ((hp.map (fun x : ParEventInstance E => x.id)).nodup_iff).mpr hn2
  exact List.eq_of_perm_of_sorted hp (pairwise_lt_of_le_nodup hl hn')
    (pairwise_lt_of_le_nodup hm hn)

theorem sortById_eq_of_perm {l m : List (ParEventInstance E)} (hp : l.Perm m)
    (hm : m.Pairwise (fun a b => a.id ≤ b.id)) (hn : (ids m).Nodup) : sortById l = m :=
  sorted_eq_of_perm ((sortById_perm l).trans hp) (sortById_pairwise l) hm hn

theorem flatten_set_perm {α : Type} :
    ∀ (l : List (List α)) (i : Nat) (h : i < l.length) (xs : List α),
      ((l.set i (l[i] ++ xs)).flatten).Perm (l.flatten ++ xs)
  | a :: t, 0, _, xs => by
    show ((a ++ xs) :: t).flatten.Perm ((a :: t).flatten ++ xs)
    simp only [List.flatten_cons, List.append_assoc]
    exact List.Perm.append_left a List.perm_append_comm
  | a :: t, i + 1, h, xs => by
    show (a :: t.set i ((a :: t)[i + 1] ++ xs)).flatten.Perm ((a :: t).flatten ++ xs)
    simp only [List.getElem_cons_succ, List.flatten_cons, List.append_assoc]
    exact List.Perm.append_left a (flatten_set_perm t i (Nat.lt_of_succ_lt_succ h) xs)

theorem set_getElem_id {α : Type} :
    ∀ (l : List α) (i : Nat) (h : i < l.length), l.set i l[i] = l
  | _ :: _, 0, _ => rfl
  | a :: t, i + 1, h => by
    show a :: t.set i (a :: t)[i + 1] = a :: t
    simp only [List.getElem_cons_succ]
    rw [set_getElem_id t i (Nat.lt_of_succ_lt_succ h)]

theorem range'_drop : ∀ (k s n : Nat), (List.range' s n).drop k = List.range' (s + k) (n - k)
  | 0, s, n => by simp
  | k + 1, s, 0 => by simp
  | k + 1, s, n + 1 => by
    rw [List.range'_succ, List.drop_succ_cons, range'_drop k (s + 1) n]
    have e1 : s + 1 + k = s + (k + 1) := by omega
    have e2 : n - k = n + 1 - (k + 1) := by omega
    rw [e1, e2]

theorem range'_snoc (s n : Nat) : List.range' s n ++ [s + n] = List.range' s (n + 1) := by
  have h := List.range'_append s n 1 1
  rw [List.range'_one, show s + 1 * n = s + n by omega, Nat.add_comm 1 n] at h
  exact h

theorem range'_glue {lo mid cnt : Nat} (h1 : lo ≤ mid) (h2 : mid ≤ cnt) :
    List.range' lo (mid - lo) ++ List.range' mid (cnt - mid) = List.range' lo (cnt - lo) := by
  have h := List.range'_append lo (mid - lo) (cnt - mid) 1
  rw [show lo + 1 * (mid - lo) = mid by omega] at h
  rw [h, show cnt - mid + (mid - lo) = cnt - lo by omega]

theorem tagFrom_ids : ∀ (c : Nat) (es : List E),
    ids (ParEvents.tagFrom c es) = List.range' c es.length
  | _, [] => rfl
  | c, e :: es => by
    show c :: ids (ParEvents.tagFrom (c + 1) es) = _
    rw [tagFrom_ids (c + 1) es, List.length_cons, List.range'_succ]

theorem tagFrom_length (c : Nat) (es : List E) :
    (ParEvents.tagFrom c es).length = es.length := by
  have h := congrArg List.length (tagFrom_ids c es)
  rw [ids_length, List.length_range'] at h
  exact h

theorem tagFrom_append : ∀ (c : Nat) (es fs : List E),
    ParEvents.tagFrom c (es ++ fs)
      = ParEvents.tagFrom c es ++ ParEvents.tagFrom (c + es.length) fs
  | c, [], fs => by simp [ParEvents.tagFrom]
  | c, e :: es, fs => by
    show (⟨c, e⟩ : ParEventInstance E) :: ParEvents.tagFrom (c + 1) (es ++ fs) = _
    rw [tagFrom_append (c + 1) es fs,
      show c + 1 + es.length = c + (e :: es).length by simp; omega]
    rfl

theorem flatten_map_nil {α β : Type} (l : List α) :
    (l.map (fun _ => ([] : List β))).flatten = [] := by
  induction l with
  | nil => rfl
  | cons a t ih => simp only [List.map_cons, List.flatten_cons, List.nil_append]; exact ih

end Bau

namespace Bau

variable {E : Type}

theorem ParEvents.WF.view_eq {ev : ParEvents E} {lo mid : Nat} (h : ev.WF lo mid) :
    ev.view = sortById ev.events_a.flatten ++ sortById ev.events_b.flatten := by
  obtain ⟨hab, hlm, hmc, hA, hB⟩ := h
  apply sortById_eq_of_perm
  · exact List.Perm.append (sortById_perm _).symm (sortById_perm _).symm
  · rw [List.pairwise_append]
    refine ⟨sortById_pairwise _, sortById_pairwise _, ?_⟩
    intro a ha b hb
    have ha' : a.id ∈ List.range' lo (mid - lo) := by
      rw [← hA]; exact List.mem_map_of_mem _ ha
    have hb' : b.id ∈ List.range' mid (ev.event_count - mid) := by
      rw [← hB]; exact List.mem_map_of_mem _ hb
    have h1 := List.mem_range'_1.mp ha'
    have h2 := List.mem_range'_1.mp hb'
    show a.id ≤ b.id
    omega
  · rw [ids_append, hA, hB, range'_glue hlm hmc]
    exact List.nodup_range' _ _

theorem ParEvents.WF.ids_view {ev : ParEvents E} {lo mid : Nat} (h : ev.WF lo mid) :
    ids ev.view = List.range' lo (ev.event_count - lo) := by
  rw [h.view_eq, ids_append, h.2.2.2.1, h.2.2.2.2, range'_glue h.2.1 h.2.2.1]

theorem ParEvents.WF.view_length {ev : ParEvents E} {lo mid : Nat} (h : ev.WF lo mid) :
    ev.view.length = ev.event_count - lo := by
  rw [← ids_length, h.ids_view, List.length_range']

theorem ParEvents.WF.lo_le {ev : ParEvents E} {lo mid : Nat} (h : ev.WF lo mid) :
    lo ≤ ev.event_count :=
  Nat.le_trans h.2.1 h.2.2.1

theorem send_spec {ev : ParEvents E} {lo mid : Nat} (h : ev.WF lo mid) {s : Nat}
    (hs : s < ev.events_b.length) (e : E) :
    ∃ ev', ev.send s e = some ev' ∧
      ev'.WF lo mid ∧
      ev'.event_count = ev.event_count + 1 ∧
      ev'.events_a = ev.events_a ∧
      sortById ev'.events_b.flatten
        = sortById ev.events_b.flatten ++ [⟨ev.event_count, e⟩] ∧
      ev'.events_b.length = ev.events_b.length ∧
      ev'.view = ev.view ++ [⟨ev.event_count, e⟩] := by
  obtain ⟨hab, hlm, hmc, hA, hB⟩ := id h
  have hsend : ev.send s e = some
      { ev with
        events_b := ev.events_b.set s (ev.events_b[s] ++ [⟨ev.event_count, e⟩]),
        event_count := ev.event_count + 1 } := by
    rw [ParEvents.send, dif_pos hs]
  have hsortB : sortById ((ev.events_b.set s
        (ev.events_b[s] ++ [⟨ev.event_count, e⟩])).flatten)
      = sortById ev.events_b.flatten ++ [⟨ev.event_count, e⟩] := by
    apply sortById_eq_of_perm
    · exact (flatten_set_perm ev.events_b s hs _).trans
        (((sortById_perm ev.events_b.flatten).symm).append_right _)
    · rw [List.pairwise_append]
      refine ⟨sortById_pairwise _, List.pairwise_singleton _ _, ?_⟩
      intro a ha b hb
      have ha' : a.id ∈ List.range' mid (ev.event_count - mid) := by
        rw [← hB]; exact List.mem_map_of_mem _ ha
      have h1 := List.mem_range'_1.mp ha'
      have hb' : b = ⟨ev.event_count, e⟩ := by simpa using hb
      show a.id ≤ b.id
      rw [hb']
      show a.id ≤ ev.event_count
      omega
    · rw [ids_append, hB]
      have hone : ids [(⟨ev.event_count, e⟩ : ParEventInstance E)] = [ev.event_count] := rfl
      rw [hone, List.nodup_append]
      refine ⟨List.nodup_range' _ _, List.nodup_singleton _, ?_⟩
      intro a ha hb
      have h1 := List.mem_range'_1.mp ha
      have h2 : a = ev.event_count := by simpa using hb
      omega
  have hidsB : ids (sortById ev.events_b.flatten ++ [⟨ev.event_count, e⟩])
      = List.range' mid (ev.event_count + 1 - mid) := by
    rw [ids_append, hB]
    have hone : ids [(⟨ev.event_count, e⟩ : ParEventInstance E)] = [ev.event_count] := rfl
    rw [hone, show [ev.event_count] = [mid + (ev.event_count - mid)] by
        rw [Nat.add_sub_cancel' hmc],
      range'_snoc, show ev.event_count - mid + 1 = ev.event_count + 1 - mid by omega]
  have hWF' : ParEvents.WF
      { ev with
        events_b := ev.events_b.set s (ev.events_b[s] ++ [⟨ev.event_count, e⟩]),
        event_count := ev.event_count + 1 } lo mid := by
    refine ⟨?_, hlm, ?_, hA, ?_⟩
    · show ev.events_a.length = (ev.events_b.set s _).length
      rw [List.length_set]; exact hab
    · show mid ≤ ev.event_count + 1
      omega
    · show ids (sortById ((ev.events_b.set s _).flatten))
        = List.range' mid (ev.event_count + 1 - mid)
      rw [hsortB, hidsB]
  refine ⟨_, hsend, hWF', rfl, rfl, hsortB, ?_, ?_⟩
  · show (ev.events_b.set s _).length = ev.events_b.length
    exact List.length_set _ _ _
  · rw [hWF'.view_eq, h.view_eq]
    show sortById ev.events_a.flatten ++ sortById ((ev.events_b.set s
        (ev.events_b[s] ++ [⟨ev.event_count, e⟩])).flatten) = _
    rw [hsortB]
    exact (List.append_assoc _ _ _).symm

theorem update_spec {ev : ParEvents E} {lo mid : Nat} (h : ev.WF lo mid) :
    ev.update.WF mid ev.event_count ∧
    ev.update.event_count = ev.event_count ∧
    ev.update.view = sortById ev.events_b.flatten := by
  obtain ⟨hab, hlm, hmc, hA, hB⟩ := id h
  have hflat : (ev.events_a.map
      (fun _ => ([] : List (ParEventInstance E)))).flatten = [] := flatten_map_nil _
  refine ⟨⟨?_, hmc, Nat.le_refl _, hB, ?_⟩, rfl, ?_⟩
  · show ev.events_b.length = (ev.events_a.map _).length
    rw [List.length_map]; exact hab.symm
  · show ids (sortById ((ev.events_a.map
      (fun _ => ([] : List (ParEventInstance E)))).flatten))
      = List.range' ev.event_count (ev.event_count - ev.event_count)
    rw [hflat, Nat.sub_self]
    rfl
  · show sortById (ev.events_b.flatten ++ (ev.events_a.map
      (fun _ => ([] : List (ParEventInstance E)))).flatten) = _
    rw [hflat, List.append_nil]

end Bau

namespace Bau

variable {E : Type}

theorem takeN_spec (k : Nat) (it : ParEventIteratorWithId E) :
    it.takeN k =
      (it.event_iter.take k,
       { reader := { last_event_count :=
            it.reader.last_event_count + min k it.event_iter.length },
         event_iter := it.event_iter.drop k,
         unread := it.unread - min k it.event_iter.length }) := by
  induction k generalizing it with
  | zero =>
    obtain ⟨⟨last⟩, iter, unread⟩ := it
    simp [ParEventIteratorWithId.takeN]
  | succ k ih =>
    obtain ⟨⟨last⟩, iter, unread⟩ := it
    cases iter with
    | nil =>
      simp [ParEventIteratorWithId.takeN, ParEventIteratorWithId.next]
    | cons x rest =>
      simp only [ParEventIteratorWithId.takeN, ParEventIteratorWithId.next, ih,
        List.take_succ_cons, List.drop_succ_cons, List.length_cons,
        Prod.mk.injEq, ParEventIteratorWithId.mk.injEq, ParManualEventReader.mk.injEq,
        true_and, and_true]
      omega

theorem ParEvents.WF.view_head {ev : ParEvents E} {lo mid : Nat} (h : ev.WF lo mid)
    {o : ParEventInstance E} {rest : List (ParEventInstance E)}
    (hv : ev.view = o :: rest) : o.id = lo := by
  have hids := h.ids_view
  have hlen := h.view_length
  rw [hv] at hids hlen
  have hcons : ids (o :: rest) = o.id :: ids rest := rfl
  rw [hcons, ← hlen, List.length_cons, List.range'_succ] at hids
  injection hids with h1 _

theorem new_spec {ev : ParEvents E} {lo mid : Nat} (h : ev.WF lo mid)
    {r : ParManualEventReader E} (hr : r.last_event_count ≤ ev.event_count) :
    ParEventIteratorWithId.new r ev =
      { reader := { last_event_count := max lo r.last_event_count },
        event_iter := ev.view.drop (r.last_event_count - lo),
        unread := ev.view.length - (r.last_event_count - lo) } := by
  have hlen := h.view_length
  have hlo := h.lo_le
  cases hv : ev.view with
  | nil =>
    have h0 : ev.event_count - lo = 0 := by
      rw [← hlen, hv]
      rfl
    simp only [ParEventIteratorWithId.new, hv, List.drop_nil, List.length_nil,
      ParEventIteratorWithId.mk.injEq, ParManualEventReader.mk.injEq]
    refine ⟨by omega, trivial, by omega⟩
  | cons o rest =>
    have ho : o.id = lo := h.view_head hv
    simp only [ParEventIteratorWithId.new, hv, ParEventIteratorWithId.mk.injEq,
      ParManualEventReader.mk.injEq]
    rw [ho]
    refine ⟨?_, rfl, rfl⟩
    split_ifs with h1
    all_goals omega

theorem read_spec {ev : ParEvents E} {lo mid : Nat} (h : ev.WF lo mid)
    {r : ParManualEventReader E} (hr : r.last_event_count ≤ ev.event_count) :
    r.read ev = (ev.view.drop (r.last_event_count - lo),
      { last_event_count := ev.event_count }) := by
  have hlen := h.view_length
  have hlo := h.lo_le
  simp only [ParManualEventReader.read, new_spec h hr, takeN_spec, List.take_length,
    Nat.min_self, Prod.mk.injEq, ParManualEventReader.mk.injEq]
  refine ⟨trivial, ?_⟩
  rw [List.length_drop, hlen]
  omega

theorem len_spec {ev : ParEvents E} {lo mid : Nat} (h : ev.WF lo mid)
    {r : ParManualEventReader E} (hr : r.last_event_count ≤ ev.event_count) :
    r.len ev = ev.event_count - max lo r.last_event_count := by
  have hlen := h.view_length
  have hlo := h.lo_le
  cases hv : ev.view with
  | nil =>
    have h0 : ev.event_count - lo = 0 := by
      rw [← hlen, hv]
      rfl
    simp only [ParManualEventReader.len, hv]
    omega
  | cons o rest =>
    have ho : o.id = lo := h.view_head hv
    have hlen' : (o :: rest).length = ev.event_count - lo := by
      rw [← hv, hlen]
    simp only [ParManualEventReader.len, hv, ho]
    omega

end Bau

namespace Bau

variable {E : Type}

theorem pairwise_lt_of_ids_range' {l : List (ParEventInstance E)} {s n : Nat}
    (h : ids l = List.range' s n) : l.Pairwise (fun a b => a.id < b.id) := by
  have h2 : (l.map (fun x => x.id)).Pairwise (fun a b => a < b) := by
    have he : List.map (fun x : ParEventInstance E => x.id) l = ids l := rfl
    rw [he, h]
    exact List.pairwise_lt_range' _ _
  exact List.pairwise_map.mp h2

theorem sendAll_spec (ps : List (Nat × E)) : ∀ (ev : ParEvents E) {lo mid : Nat},
    ev.WF lo mid → (∀ p ∈ ps, p.1 < ev.events_b.length) →
    ∃ ev', sendAll ev ps = some ev' ∧ ev'.WF lo mid ∧
      ev'.event_count = ev.event_count + ps.length ∧
      ev'.events_b.length = ev.events_b.length ∧
      ev'.view = ev.view ++ ParEvents.tagFrom ev.event_count (ps.map Prod.snd) := by
  induction ps with
  | nil =>
    intro ev lo mid h _
    exact ⟨ev, rfl, h, by simp, rfl, by simp [ParEvents.tagFrom]⟩
  | cons p rest ih =>
    intro ev lo mid h hs
    obtain ⟨ev1, hsend, hWF1, hcnt1, _, _, hblen1, hview1⟩ :=
      send_spec h (hs p (by simp)) p.2
    obtain ⟨ev2, hrun, hWF2, hcnt2, hblen2, hview2⟩ :=
      ih ev1 hWF1 (fun q hq => by rw [hblen1]; exact hs q (by simp [hq]))
    refine ⟨ev2, ?_, hWF2, by simp; omega, by rw [hblen2, hblen1], ?_⟩
    · simp only [sendAll, hsend, Option.some_bind]
      exact hrun
    · rw [hview2, hview1, hcnt1]
      simp [ParEvents.tagFrom, List.append_assoc]

theorem runRounds_spec (batches : List (List (Nat × E))) :
    ∀ (ev : ParEvents E) (r : ParManualEventReader E) {c0 : Nat},
    ev.WF c0 c0 → r.last_event_count ≤ ev.event_count →
    max r.last_event_count c0 = ev.event_count →
    (∀ p ∈ batches.flatten, p.1 < ev.events_b.length) →
    ∃ outs evf rf, runRounds ev r batches = some (outs, evf, rf) ∧
      outs.flatten = ParEvents.tagFrom ev.event_count ((batches.flatten).map Prod.snd) ∧
      evf.WF c0 c0 ∧
      evf.event_count = ev.event_count + batches.flatten.length := by
  induction batches with
  | nil =>
    intro ev r c0 h _ _ _
    exact ⟨[], ev, r, rfl, by simp [ParEvents.tagFrom], h, by simp⟩
  | cons batch rest ih =>
    intro ev r c0 h hr hm hs
    obtain ⟨ev1, hsend, hWF1, hcnt1, hblen1, hview1⟩ :=
      sendAll_spec batch ev h (fun p hp => hs p (by simp [hp]))
    have hlo := h.lo_le
    have hviewlen : ev.view.length = ev.event_count - c0 := h.view_length
    have hr1 : r.last_event_count ≤ ev1.event_count := by omega
    have hdrop : ev1.view.drop (r.last_event_count - c0)
        = ParEvents.tagFrom ev.event_count (batch.map Prod.snd) := by
      rw [hview1]
      rcases Nat.lt_or_ge c0 ev.event_count with hgt | hle
      · have hrl : r.last_event_count = ev.event_count := by omega
        rw [hrl, show ev.event_count - c0 = ev.view.length from by omega, List.drop_left]
      · have hcnt0 : ev.event_count = c0 := by omega
        have hv0 : ev.view = [] := List.eq_nil_of_length_eq_zero (by omega)
        rw [hv0, List.nil_append,
          show r.last_event_count - c0 = 0 from by omega, List.drop_zero]
    have hread : r.read ev1
        = (ParEvents.tagFrom ev.event_count (batch.map Prod.snd),
           { last_event_count := ev1.event_count }) := by
      rw [read_spec hWF1 hr1, hdrop]
    obtain ⟨outs2, evf, rf, hrun2, hflat2, hWF2, hcnt2⟩ :=
      ih ev1 { last_event_count := ev1.event_count } hWF1 (Nat.le_refl _)
        (by show max ev1.event_count c0 = ev1.event_count; omega)
        (fun q hq => by rw [hblen1]; exact hs q (by simp [hq]))
    refine ⟨ParEvents.tagFrom ev.event_count (batch.map Prod.snd) :: outs2, evf, rf,
      ?_, ?_, hWF2, ?_⟩
    · simp only [runRounds, hsend, Option.some_bind, hread, hrun2, Option.map_some']
    · show ParEvents.tagFrom ev.event_count (batch.map Prod.snd) ++ outs2.flatten = _
      rw [hflat2, hcnt1, List.flatten_cons, List.map_append, tagFrom_append,
        List.length_map]
    · rw [hcnt2, hcnt1]
      simp only [List.flatten_cons, List.length_append]
      omega

end Bau

namespace Bau

variable {E : Type}

theorem applyOp_lanes {ev ev' : ParEvents E} {op : Op E}
    (hab : ev.events_a.length = ev.events_b.length) (h : applyOp ev op = some ev') :
    ev'.events_a.length = ev'.events_b.length ∧
    ev.events_a.length ≤ ev'.events_a.length := by
  cases op with
  | send s e =>
    simp only [applyOp, ParEvents.send] at h
    split at h
    · obtain rfl := Option.some.inj h
      refine ⟨?_, Nat.le_refl _⟩
      show ev.events_a.length = (ev.events_b.set _ _).length
      rw [List.length_set]
      exact hab
    · exact absurd h (by simp)
  | send_batch s l =>
    simp only [applyOp, ParEvents.extend] at h
    split at h
    · obtain rfl := Option.some.inj h
      refine ⟨?_, Nat.le_refl _⟩
      show ev.events_a.length = (ev.events_b.set _ _).length
      rw [List.length_set]
      exact hab
    · exact absurd h (by simp)
  | update =>
    obtain rfl := Option.some.inj h
    refine ⟨?_, ?_⟩
    · show ev.events_b.length = (ev.events_a.map _).length
      rw [List.length_map]
      exact hab.symm
    · show ev.events_a.length ≤ ev.events_b.length
      omega
  | clear =>
    obtain rfl := Option.some.inj h
    refine ⟨?_, ?_⟩
    · show (ev.events_a.map _).length = (ev.events_b.map _).length
      rw [List.length_map, List.length_map]
      exact hab
    · show ev.events_a.length ≤ (ev.events_a.map _).length
      rw [List.length_map]
  | drain =>
    obtain rfl := Option.some.inj h
    refine ⟨?_, ?_⟩
    · show (ev.events_a.map _).length = (ev.events_b.map _).length
      rw [List.length_map, List.length_map]
      exact hab
    · show ev.events_a.length ≤ (ev.events_a.map _).length
      rw [List.length_map]
  | add_slot =>
    obtain rfl := Option.some.inj h
    refine ⟨?_, ?_⟩
    · show (ev.events_a ++ [[]]).length = (ev.events_b ++ [[]]).length
      rw [List.length_append, List.length_append]
      omega
    · show ev.events_a.length ≤ (ev.events_a ++ [[]]).length
      rw [List.length_append]
      omega

theorem runOps_lanes : ∀ (ops : List (Op E)) (ev ev' : ParEvents E),
    ev.events_a.length = ev.events_b.length → runOps ev ops = some ev' →
    ev'.events_a.length = ev'.events_b.length ∧
    ev.events_a.length ≤ ev'.events_a.length
  | [], ev, ev', hab, h => by
    obtain rfl := Option.some.inj h
    exact ⟨hab, Nat.le_refl _⟩
  | op :: ops, ev, ev', hab, h => by
    simp only [runOps] at h
    cases hop : applyOp ev op with
    | none =>
      rw [hop] at h
      exact absurd h (by simp)
    | some ev1 =>
      rw [hop, Option.some_bind] at h
      obtain ⟨h1, h2⟩ := applyOp_lanes hab hop
      obtain ⟨h3, h4⟩ := runOps_lanes ops ev1 ev' h1 h
      exact ⟨h3, Nat.le_trans h2 h4⟩

theorem registerN_lanes (n : Nat) : (registerN E n).events_a.length = n + 1 := by
  induction n with
  | zero => rfl
  | succ n ih =>
    show ((registerN E n).events_a ++ [[]]).length = n + 2
    rw [List.length_append, ih]
    rfl

end Bau

namespace Bau

variable {E : Type}

theorem genB_length {ev : ParEvents E} {lo mid : Nat} (h : ev.WF lo mid) :
    (sortById ev.events_b.flatten).length = ev.event_count - mid := by
  rw [← ids_length, h.2.2.2.2, List.length_range']

theorem view_update_update (ev : ParEvents E) : (ev.update.update).view = [] := by
  show sortById ((ev.events_a.map _).flatten ++ (ev.events_b.map _).flatten) = []
  rw [flatten_map_nil, flatten_map_nil]
  rfl

theorem read_empty_view {ev : ParEvents E} (hv : ev.view = [])
    (r : ParManualEventReader E) :
    r.read ev = ([], { last_event_count := ev.event_count }) := by
  simp only [ParManualEventReader.read, ParEventIteratorWithId.new, hv,
    List.length_nil, ParEventIteratorWithId.takeN]

/-- C1: for every sequence of send operations interleaved in any order across
registered lanes, with no rotation in between, a cursor created from genesis
(`get_reader`) and read repeatedly observes each sent event exactly once —
the concatenation of the reads is precisely the sent payloads tagged with
consecutive ids in allocation order — in strictly increasing id order; the
observed ids are globally unique (`range'`) and assigned in allocation order
regardless of which lane each send targeted. -/
theorem c1_total_order_no_duplication {E : Type} (ev0 : ParEvents E) (c0 : Nat)
    (batches : List (List (Nat × E)))
    (hWF : ev0.WF c0 c0) (hcnt : ev0.event_count = c0)
    (hslots : ∀ p ∈ batches.flatten, p.1 < ev0.events_b.length) :
    ∃ outs evf rf, runRounds ev0 (ev0.get_reader) batches = some (outs, evf, rf) ∧
      outs.flatten = ParEvents.tagFrom c0 ((batches.flatten).map Prod.snd) ∧
      ids (outs.flatten) = List.range' c0 (batches.flatten).length ∧
      (outs.flatten).Pairwise (fun a b => a.id < b.id) := by
  obtain ⟨outs, evf, rf, hrun, hflat, _, _⟩ :=
    runRounds_spec batches ev0 (ev0.get_reader) hWF (Nat.zero_le _)
      (by show max 0 c0 = ev0.event_count; rw [hcnt]; omega) hslots
  rw [hcnt] at hflat
  have hids : ids (outs.flatten) = List.range' c0 (batches.flatten).length := by
    rw [hflat, tagFrom_ids, List.length_map]
  exact ⟨outs, evf, rf, hrun, hflat, hids, pairwise_lt_of_ids_range' hids⟩

/-- C2: an event survives exactly one rotation and is discarded at the second:
after `send(e1)`, a cursor that was current at the send still observes `e1`
after one `update` (its read yields exactly `[e1]`); after two `update` calls
with no intervening read, nothing is retained (`view = []`), so a
fresh-from-genesis cursor — indeed any cursor — reads nothing and `e1` is
permanently unobservable. -/
theorem c2_bounded_retention {E : Type} {ev : ParEvents E} {lo mid : Nat}
    (h : ev.WF lo mid) {r : ParManualEventReader E}
    (hr : r.last_event_count = ev.event_count) {s : Nat}
    (hs : s < ev.events_b.length) (e1 : E) :
    ∃ ev1, ev.send s e1 = some ev1 ∧
      (r.read ev1.update).1 = [⟨ev.event_count, e1⟩] ∧
      ev1.update.update.view = [] ∧
      ∀ r2 : ParManualEventReader E, (r2.read ev1.update.update).1 = [] := by
  obtain ⟨ev1, hsend, hWF1, hcnt1, _, hsortB1, _, _⟩ := send_spec h hs e1
  obtain ⟨hWFu, hcntu, hviewu⟩ := update_spec hWF1
  have hmc := h.2.2.1
  have hru : r.last_event_count ≤ ev1.update.event_count := by
    rw [hcntu]; omega
  have hBlen : (sortById ev.events_b.flatten).length = ev.event_count - mid :=
    genB_length h
  have hread1 : (r.read ev1.update).1 = [⟨ev.event_count, e1⟩] := by
    rw [read_spec hWFu hru]
    show (ev1.update.view).drop (r.last_event_count - mid) = _
    rw [hviewu, hsortB1, hr,
      show ev.event_count - mid = (sortById ev.events_b.flatten).length from hBlen.symm,
      List.drop_left]
  refine ⟨ev1, hsend, hread1, view_update_update ev1, fun r2 => ?_⟩
  rw [read_empty_view (view_update_update ev1) r2]

/-- C3: if at the start of a read the cursor's high-water mark is below the
oldest retained id (here `lo`, the id of the head of the sorted view), the
read silently catches the cursor up to that oldest id and yields every
retained record; the skipped ids are simply gone for this reader and no error
is signalled (the functions are total). -/
theorem c3_lossy_catch_up {E : Type} {ev : ParEvents E} {lo mid : Nat}
    (h : ev.WF lo mid) {r : ParManualEventReader E}
    (hstale : r.last_event_count < lo)
    {o : ParEventInstance E} {rest : List (ParEventInstance E)}
    (hv : ev.view = o :: rest) :
    o.id = lo ∧
    (∀ x ∈ ev.view, lo ≤ x.id) ∧
    (ParEventIteratorWithId.new r ev).reader.last_event_count = lo ∧
    r.read ev = (ev.view, { last_event_count := ev.event_count }) := by
  have hlo := h.lo_le
  have hr : r.last_event_count ≤ ev.event_count := by omega
  have hmem : ∀ x ∈ ev.view, lo ≤ x.id := by
    intro x hx
    have : x.id ∈ List.range' lo (ev.event_count - lo) := by
      rw [← h.ids_view]
      exact List.mem_map_of_mem _ hx
    exact (List.mem_range'_1.mp this).1
  refine ⟨h.view_head hv, hmem, ?_, ?_⟩
  · rw [new_spec h hr]
    show max lo r.last_event_count = lo
    omega
  · rw [read_spec h hr, show r.last_event_count - lo = 0 from by omega, List.drop_zero]

/-- C4: for a cursor with pending unread events, `len` (which cannot mutate
the cursor: it is a pure function of it) agrees with the number of records a
fully-consumed read yields; the read's output is sorted strictly ascending by
id; the read advances the cursor to the allocator's current value (one past
the greatest id consumed when anything matched); and an immediately following
read yields nothing and leaves the cursor unchanged (idempotent drain). -/
theorem c4_len_read_consistency {E : Type} {ev : ParEvents E} {lo mid : Nat}
    (h : ev.WF lo mid) {r : ParManualEventReader E}
    (hr : r.last_event_count ≤ ev.event_count) :
    r.len ev = (r.read ev).1.length ∧
    ((r.read ev).1).Pairwise (fun a b => a.id < b.id) ∧
    (r.read ev).2.last_event_count = ev.event_count ∧
    ((r.read ev).2).read ev = ([], (r.read ev).2) ∧
    ((r.read ev).2).len ev = 0 := by
  have hlen := h.view_length
  have hlo := h.lo_le
  rw [read_spec h hr, len_spec h hr]
  have hcnt_le : ev.event_count ≤ ev.event_count := Nat.le_refl _
  have hread2 : ParManualEventReader.read
      { last_event_count := ev.event_count } ev
      = (ev.view.drop (ev.event_count - lo), { last_event_count := ev.event_count }) :=
    read_spec h hcnt_le
  refine ⟨?_, ?_, rfl, ?_, ?_⟩
  · rw [List.length_drop, hlen]
    omega
  · exact List.Pairwise.sublist (List.drop_sublist _ _)
      (pairwise_lt_of_ids_range' h.ids_view)
  · rw [hread2, show ev.event_count - lo = ev.view.length from by omega, List.drop_length]
  · rw [len_spec h hcnt_le]
    show ev.event_count - max lo ev.event_count = 0
    omega

end Bau

namespace Bau

variable {E : Type}

/-- C5 counterexample: `Default for ParEvents` already reserves lane 0 at
construction, so the first `add_slot` registration on a freshly created log
returns 1, not 0. -/
theorem c5_counterexample_first_registration :
    ((ParEvents.default Nat).add_slot).1 = 1 ∧
    ((ParEvents.default Nat).add_slot).1 ≠ 0 := by
  decide

/-- C5 (amended): `add_slot` appends one new empty lane to both generations
and returns its dense zero-based index, the number of lanes present before
the call; because construction reserves lane 0, the n-th registration
(0-indexed) on a freshly created log returns n + 1. -/
theorem c5_register_lane_dense_index {E : Type} (ev : ParEvents E) (n : Nat) :
    (ev.add_slot).1 = ev.events_a.length ∧
    (ev.add_slot).2.events_a = ev.events_a ++ [[]] ∧
    (ev.add_slot).2.events_b = ev.events_b ++ [[]] ∧
    ((registerN E n).add_slot).1 = n + 1 :=
  ⟨rfl, rfl, rfl, registerN_lanes n⟩

/-- C6: a cursor's `clear` jumps its high-water mark to the allocator's
current value; immediately afterwards its read yields nothing, its `len` is 0
and `is_empty` is true.  The log is taken by shared reference (`clear`
returns only the new cursor and the `ParEvents` value is reused unchanged),
so the stored events and every other cursor are untouched. -/
theorem c6_cursor_clear {E : Type} {ev : ParEvents E} {lo mid : Nat}
    (h : ev.WF lo mid) (r : ParManualEventReader E) :
    (r.clear ev).last_event_count = ev.event_count ∧
    ((r.clear ev).read ev).1 = [] ∧
    (r.clear ev).len ev = 0 ∧
    (r.clear ev).is_empty ev = true := by
  have hlen := h.view_length
  have hlo := h.lo_le
  have hle : (r.clear ev).last_event_count ≤ ev.event_count := Nat.le_refl _
  have hlen0 : (r.clear ev).len ev = 0 := by
    rw [len_spec h hle]
    show ev.event_count - max lo ev.event_count = 0
    omega
  refine ⟨rfl, ?_, hlen0, ?_⟩
  · rw [read_spec h hle]
    show ev.view.drop (ev.event_count - lo) = []
    rw [show ev.event_count - lo = ev.view.length from by omega, List.drop_length]
  · rw [ParManualEventReader.is_empty, hlen0]
    rfl

/-- C7: `send_batch` (`extend`) is observationally equivalent to sending each
element of the batch in iteration order on the same registered lane: the
whole log state, including the consecutive ids reserved for the batch, is
identical. -/
theorem c7_send_batch_refines_sends {E : Type} (iter : List E) (s : Nat) :
    ∀ (ev : ParEvents E), s < ev.events_b.length →
      ev.extend s iter = sendAll ev (iter.map (fun e => (s, e))) := by
  induction iter with
  | nil =>
    intro ev hs
    show ev.extend s [] = some ev
    rw [ParEvents.extend, dif_pos hs]
    simp only [ParEvents.tagFrom, List.append_nil, List.length_nil, Nat.add_zero]
    rw [set_getElem_id ev.events_b s hs]
  | cons e es ih =>
    intro ev hs
    have hs1 : s < (ev.events_b.set s
        (ev.events_b[s] ++ [⟨ev.event_count, e⟩])).length := by
      rw [List.length_set]; exact hs
    show ev.extend s (e :: es)
      = (ev.send s e).bind (fun ev' => sendAll ev' (es.map (fun x => (s, x))))
    rw [ParEvents.send, dif_pos hs, Option.some_bind, ← ih _ hs1]
    rw [ParEvents.extend, dif_pos hs, ParEvents.extend, dif_pos hs1]
    simp only [List.getElem_set_self, List.set_set, List.append_assoc,
      List.singleton_append, ParEvents.tagFrom, Option.some.injEq,
      ParEvents.mk.injEq, List.length_cons]
    refine ⟨trivial, trivial, by omega⟩

/-- C8: `send` hits its fail-fast branch (modelled as `none`, the `expect`
panic) exactly when the lane is not a registered index of the current
generation; and a lane actually obtained from a registration stays valid
across any subsequent operation sequence, so such a `send` never fails.  No
operation of the core returns a recoverable error value. -/
theorem c8_send_fail_fast {E : Type} (base : ParEvents E)
    (hab : base.events_a.length = base.events_b.length)
    (ops : List (Op E)) (ev' : ParEvents E)
    (hrun : runOps (base.add_slot).2 ops = some ev') (e : E) :
    (∀ (ev : ParEvents E) (s : Nat) (y : E),
      (ev.send s y).isSome ↔ s < ev.events_b.length) ∧
    (ev'.send (base.add_slot).1 e).isSome := by
  have hiff : ∀ (ev : ParEvents E) (s : Nat) (y : E),
      (ev.send s y).isSome ↔ s < ev.events_b.length := by
    intro ev s y
    rw [ParEvents.send]
    split
    · simp [*]
    · simp [*]
  refine ⟨hiff, ?_⟩
  have hab1 : (base.add_slot).2.events_a.length
      = (base.add_slot).2.events_b.length := by
    show (base.events_a ++ [[]]).length = (base.events_b ++ [[]]).length
    rw [List.length_append, List.length_append, hab]
  obtain ⟨h1, h2⟩ := runOps_lanes ops _ _ hab1 hrun
  rw [hiff]
  show base.events_a.length < ev'.events_b.length
  have h3 : (base.add_slot).2.events_a.length = base.events_a.length + 1 := by
    show (base.events_a ++ [[]]).length = _
    rw [List.length_append]
    rfl
  omega

/-- C9 (implicit invariant): both generations always hold the same number of
lane buffers, every lane index returned by a registration stays a valid index
into both generations after any sequence of send / send_batch / update /
drain / clear / add_slot operations, and the writer system-param registration
path (`init_state`) performs exactly the same slot allocation as `add_slot`. -/
theorem c9_lane_registration_invariant {E : Type} (base : ParEvents E)
    (hab : base.events_a.length = base.events_b.length)
    (ops : List (Op E)) (ev' : ParEvents E)
    (hrun : runOps (base.add_slot).2 ops = some ev') :
    ev'.events_a.length = ev'.events_b.length ∧
    (base.add_slot).1 < ev'.events_a.length ∧
    (base.add_slot).1 < ev'.events_b.length ∧
    init_state base = base.add_slot := by
  have hab1 : (base.add_slot).2.events_a.length
      = (base.add_slot).2.events_b.length := by
    show (base.events_a ++ [[]]).length = (base.events_b ++ [[]]).length
    rw [List.length_append, List.length_append, hab]
  obtain ⟨h1, h2⟩ := runOps_lanes ops _ _ hab1 hrun
  have h3 : (base.add_slot).2.events_a.length = base.events_a.length + 1 := by
    show (base.events_a ++ [[]]).length = _
    rw [List.length_append]
    rfl
  refine ⟨h1, ?_, ?_, rfl⟩
  · show base.events_a.length < ev'.events_a.length
    omega
  · show base.events_a.length < ev'.events_b.length
    omega

/-- C10: if the iterator of a read is advanced `k` times by `next` and then
dropped before exhaustion, the cursor has moved exactly `k` past its
(possibly catch-up-adjusted) starting value — the reader position installed
by `ParEventIteratorWithId::new` — the records already yielded are the first
`k` of the full read, and the next read yields precisely the pending records
that were not consumed, in the same ascending-id order, ending in the same
state a single full read would have reached. -/
theorem c10_lazy_consumption {E : Type} {ev : ParEvents E} {lo mid : Nat}
    (h : ev.WF lo mid) {r : ParManualEventReader E}
    (hr : r.last_event_count ≤ ev.event_count) (k : Nat)
    (hk : k ≤ (r.read ev).1.length) :
    (r.read_take ev k).1 = (r.read ev).1.take k ∧
    (r.read_take ev k).2.last_event_count
      = (ParEventIteratorWithId.new r ev).reader.last_event_count + k ∧
    ((r.read_take ev k).2).read ev
      = ((r.read ev).1.drop k, (r.read ev).2) := by
  have hlen := h.view_length
  have hlo := h.lo_le
  have hklen : k ≤ (ev.view.drop (r.last_event_count - lo)).length := by
    rw [read_spec h hr] at hk
    exact hk
  have hmin : min k (ev.view.drop (r.last_event_count - lo)).length = k :=
    Nat.min_eq_left hklen
  have htake : r.read_take ev k
      = ((ev.view.drop (r.last_event_count - lo)).take k,
         { last_event_count := max lo r.last_event_count + k }) := by
    simp only [ParManualEventReader.read_take, new_spec h hr, takeN_spec, hmin]
  have hr2 : max lo r.last_event_count + k ≤ ev.event_count := by
    rw [List.length_drop, hlen] at hklen
    omega
  refine ⟨?_, ?_, ?_⟩
  · rw [htake, read_spec h hr]
  · rw [htake, new_spec h hr]
  · rw [htake, read_spec h hr]
    have hread2 := @read_spec E ev lo mid h
      { last_event_count := max lo r.last_event_count + k } hr2
    rw [hread2]
    show (ev.view.drop (max lo r.last_event_count + k - lo),
        ({ last_event_count := ev.event_count } : ParManualEventReader E)) = _
    rw [show max lo r.last_event_count + k - lo = (r.last_event_count - lo) + k from by omega,
      ← List.drop_drop]

end Bau

namespace Bau

theorem c1_witness :
    ∃ outs evf rf,
      runRounds evTwoLanes (evTwoLanes.get_reader) [[(1, 10)], [(0, 20), (1, 30)]]
        = some (outs, evf, rf) ∧
      outs.flatten = ParEvents.tagFrom 0 [10, 20, 30] ∧
      ids (outs.flatten) = List.range' 0 3 ∧
      (outs.flatten).Pairwise (fun a b => a.id < b.id) :=
  c1_total_order_no_duplication evTwoLanes 0 [[(1, 10)], [(0, 20), (1, 30)]]
    (by unfold ParEvents.WF; decide) (by decide) (by decide)

theorem c2_witness :
    ∃ ev1, evTwoLanes.send 1 42 = some ev1 ∧
      (ParManualEventReader.read ⟨0⟩ ev1.update).1 = [⟨0, 42⟩] ∧
      ev1.update.update.view = [] ∧
      ∀ r2 : ParManualEventReader Nat, (r2.read ev1.update.update).1 = [] :=
  @c2_bounded_retention Nat evTwoLanes 0 0 (by unfold ParEvents.WF; decide)
    ⟨0⟩ (by decide) 1 (by decide) 42

theorem c3_witness :
    (⟨1, 11⟩ : ParEventInstance Nat).id = 1 ∧
    (∀ x ∈ evRotated.view, 1 ≤ x.id) ∧
    (ParEventIteratorWithId.new ⟨0⟩ evRotated).reader.last_event_count = 1 ∧
    ParManualEventReader.read ⟨0⟩ evRotated = (evRotated.view, ⟨3⟩) :=
  @c3_lossy_catch_up Nat evRotated 1 2 (by unfold ParEvents.WF; decide)
    ⟨0⟩ (by decide) ⟨1, 11⟩ [⟨2, 12⟩] (by decide)

theorem c4_witness :
    ParManualEventReader.len ⟨2⟩ evRotated
      = (ParManualEventReader.read ⟨2⟩ evRotated).1.length ∧
    ((ParManualEventReader.read ⟨2⟩ evRotated).1).Pairwise (fun a b => a.id < b.id) ∧
    (ParManualEventReader.read ⟨2⟩ evRotated).2.last_event_count = 3 ∧
    ((ParManualEventReader.read ⟨2⟩ evRotated).2).read evRotated
      = ([], (ParManualEventReader.read ⟨2⟩ evRotated).2) ∧
    ((ParManualEventReader.read ⟨2⟩ evRotated).2).len evRotated = 0 :=
  @c4_len_read_consistency Nat evRotated 1 2 (by unfold ParEvents.WF; decide)
    ⟨2⟩ (by decide)

theorem c6_witness :
    (ParManualEventReader.clear ⟨0⟩ evRotated).last_event_count = 3 ∧
    ((ParManualEventReader.clear ⟨0⟩ evRotated).read evRotated).1 = [] ∧
    (ParManualEventReader.clear ⟨0⟩ evRotated).len evRotated = 0 ∧
    (ParManualEventReader.clear ⟨0⟩ evRotated).is_empty evRotated = true :=
  @c6_cursor_clear Nat evRotated 1 2 (by unfold ParEvents.WF; decide) ⟨0⟩

theorem c7_witness :
    evTwoLanes.extend 0 [7, 8, 9] = sendAll evTwoLanes [(0, 7), (0, 8), (0, 9)] :=
  c7_send_batch_refines_sends [7, 8, 9] 0 evTwoLanes (by decide)

theorem c8_witness :
    (∀ (ev : ParEvents Nat) (s : Nat) (y : Nat),
      (ev.send s y).isSome ↔ s < ev.events_b.length) ∧
    (((((ParEvents.default Nat).add_slot).2).update).send 1 5).isSome :=
  c8_send_fail_fast (ParEvents.default Nat) rfl [Op.update]
    ((((ParEvents.default Nat).add_slot).2).update) rfl 5

theorem c9_witness :
    ((((ParEvents.default Nat).add_slot).2).update).events_a.length
      = ((((ParEvents.default Nat).add_slot).2).update).events_b.length ∧
    1 < ((((ParEvents.default Nat).add_slot).2).update).events_a.length ∧
    1 < ((((ParEvents.default Nat).add_slot).2).update).events_b.length ∧
    init_state (ParEvents.default Nat) = (ParEvents.default Nat).add_slot :=
  c9_lane_registration_invariant (ParEvents.default Nat) rfl [Op.update]
    ((((ParEvents.default Nat).add_slot).2).update) rfl

theorem c10_witness :
    (ParManualEventReader.read_take ⟨0⟩ evRotated 1).1
      = (ParManualEventReader.read ⟨0⟩ evRotated).1.take 1 ∧
    (ParManualEventReader.read_take ⟨0⟩ evRotated 1).2.last_event_count
      = (ParEventIteratorWithId.new ⟨0⟩ evRotated).reader.last_event_count + 1 ∧
    ((ParManualEventReader.read_take ⟨0⟩ evRotated 1).2).read evRotated
      = ((ParManualEventReader.read ⟨0⟩ evRotated).1.drop 1,
         (ParManualEventReader.read ⟨0⟩ evRotated).2) :=
  @c10_lazy_consumption Nat evRotated 1 2 (by unfold ParEvents.WF; decide)
    ⟨0⟩ (by decide) 1 (by decide)

end Bau
